import Mathlib

/-!
Verification development for the RASAchatBot dialogue action runtime.

The Python sources under `rasa/actions` and `admin/config` are shallowly
embedded below.  Python strings are modelled as Lean `String`/`List Char`
(operating on `.data` for character-level work), Python dicts as ordered
association lists (`List (String × PyVal)`, insertion-ordered like Python
dicts), machine integers as `Nat`/`Int`, and fallible paths as `Option`.
External I/O (the aiohttp session in `BackendAPIClient._make_request`, the
Anthropic SDK call) is modelled by scripting the outcome of each outbound
call; the pure request/response bookkeeping around it is translated
faithfully from the source.
-/

namespace RasaBot

/-! ## Basic character and list helpers -/

/-- ASCII decimal digit test, modelling `\d` of the source's regexes and
`str.isdigit` for the ASCII inputs the validators receive. -/
def isDigitCh (c : Char) : Bool :=
  '0' ≤ c && c ≤ '9'

/-- Characters Python's `str.strip()` removes (ASCII whitespace). -/
def isSpaceCh (c : Char) : Bool :=
  c = ' ' || c = '\t' || c = '\n' || c = '\r' || c = Char.ofNat 11 || c = Char.ofNat 12

/-- `str.strip()` on a character list. -/
def stripWS (l : List Char) : List Char :=
  ((l.dropWhile isSpaceCh).reverse.dropWhile isSpaceCh).reverse

/-- `str.lower()` (ASCII case folding; the validator inputs are ASCII). -/
def strLower (s : String) : String :=
  ⟨s.data.map Char.toLower⟩

/-- `str.upper()` (ASCII case folding). -/
def upperList (l : List Char) : List Char :=
  l.map Char.toUpper

/-- Boolean list-prefix test. -/
def leadsList : List Char → List Char → Bool
  | [], _ => true
  | a :: as, b :: bs => if a = b then leadsList as bs else false
  | _ :: _, [] => false

/-- Boolean substring test on character lists (`needle in haystack`). -/
def hasSub (needle : List Char) : List Char → Bool
  | [] => leadsList needle []
  | c :: rest => leadsList needle (c :: rest) || hasSub needle rest

/-- Python's `in` on strings. -/
def strHasSub (hay needle : String) : Bool :=
  hasSub needle.data hay.data

/-- Parse a run of ASCII digits as a number (helper for `int(...)`). -/
def natOfDigits : List Char → Nat → Nat
  | [], acc => acc
  | c :: rest, acc => natOfDigits rest (acc * 10 + (c.toNat - '0'.toNat))

/-- `int(s)` for a plain, non-empty digit string; `none` models `ValueError`. -/
def natOfStr (l : List Char) : Option Nat :=
  if l ≠ [] && l.all isDigitCh then some (natOfDigits l 0) else none

/-- Split a character list on a separator character (`str.split(sep)`). -/
def splitOnCh (sep : Char) : List Char → List (List Char)
  | [] => [[]]
  | c :: rest =>
    let r := splitOnCh sep rest
    if c = sep then [] :: r
    else
      match r with
      | [] => [[c]]
      | h :: t => (c :: h) :: t

/-- Zero-padded two-digit decimal rendering (for `strftime` fields). -/
def pad2 (n : Nat) : List Char :=
  if n < 10 then ['0', Char.ofNat ('0'.toNat + n)]
  else [Char.ofNat ('0'.toNat + n / 10 % 10), Char.ofNat ('0'.toNat + n % 10)]

/-! ## SHA-256

A complete executable SHA-256 over byte lists (bytes are `Nat < 256`,
words are `Nat < 2^32`; overflow is explicit `% 2^32`).  The round and
initialisation constants are derived, as in the FIPS 180-4 definition,
from the fractional parts of the cube and square roots of the first
primes, via integer root extraction. -/

/-- Fueled bitwise combination of two 32-bit words. -/
def bw32 (f : Bool → Bool → Bool) : Nat → Nat → Nat → Nat
  | 0, _, _ => 0
  | fuel + 1, a, b =>
    (if f (a % 2 = 1) (b % 2 = 1) then 1 else 0) + 2 * bw32 f fuel (a / 2) (b / 2)

def and32 (a b : Nat) : Nat := bw32 (fun x y => x && y) 32 a b
def xor32 (a b : Nat) : Nat := bw32 (fun x y => x ≠ y) 32 a b
def not32 (a : Nat) : Nat := 2 ^ 32 - 1 - a
def add32 (a b : Nat) : Nat := (a + b) % 2 ^ 32
def shr32 (k a : Nat) : Nat := a / 2 ^ k
def rotr32 (k a : Nat) : Nat := a / 2 ^ k + a % 2 ^ k * 2 ^ (32 - k)

/-- Largest `x` with `x^3 ≤ n`, by fueled binary search. -/
def icbrtAux (n : Nat) : Nat → Nat → Nat → Nat
  | 0, lo, _ => lo
  | fuel + 1, lo, hi =>
    if lo + 1 < hi then
      let mid := (lo + hi) / 2
      if mid ^ 3 ≤ n then icbrtAux n fuel mid hi else icbrtAux n fuel lo mid
    else lo

def icbrt (n : Nat) : Nat := icbrtAux n 200 0 (n + 2)

/-- The first 64 primes, sources of the SHA-256 round constants. -/
def primes64 : List Nat :=
  [2, 3, 5, 7, 11, 13, 17, 19, 23, 29, 31, 37, 41, 43, 47, 53,
   59, 61, 67, 71, 73, 79, 83, 89, 97, 101, 103, 107, 109, 113, 127, 131,
   137, 139, 149, 151, 157, 163, 167, 173, 179, 181, 191, 193, 197, 199, 211, 223,
   227, 229, 233, 239, 241, 251, 257, 263, 269, 271, 277, 281, 283, 293, 307, 311]

/-- Round constants: fractional cube-root bits of the first 64 primes. -/
def sha256K : List Nat :=
  primes64.map (fun p => icbrt (p * 2 ^ 96) % 2 ^ 32)

/-- Initial hash value: fractional square-root bits of the first 8 primes. -/
def sha256H0 : List Nat :=
  (primes64.take 8).map (fun p => Nat.sqrt (p * 2 ^ 64) % 2 ^ 32)

structure Hash8 where
  a : Nat
  b : Nat
  c : Nat
  d : Nat
  e : Nat
  f : Nat
  g : Nat
  h : Nat

def sha256Round (st : Hash8) (ki wi : Nat) : Hash8 :=
  let s1 := xor32 (rotr32 6 st.e) (xor32 (rotr32 11 st.e) (rotr32 25 st.e))
  let ch := xor32 (and32 st.e st.f) (and32 (not32 st.e) st.g)
  let t1 := add32 st.h (add32 s1 (add32 ch (add32 ki wi)))
  let s0 := xor32 (rotr32 2 st.a) (xor32 (rotr32 13 st.a) (rotr32 22 st.a))
  let maj := xor32 (and32 st.a st.b) (xor32 (and32 st.a st.c) (and32 st.b st.c))
  let t2 := add32 s0 maj
  ⟨add32 t1 t2, st.a, st.b, st.c, add32 st.d t1, st.e, st.f, st.g⟩

/-- Extend the (reversed) message schedule by `n` further words. -/
def extendW (rw : List Nat) : Nat → List Nat
  | 0 => rw
  | n + 1 =>
    let s0 := xor32 (rotr32 7 (rw.getD 14 0)) (xor32 (rotr32 18 (rw.getD 14 0)) (shr32 3 (rw.getD 14 0)))
    let s1 := xor32 (rotr32 17 (rw.getD 1 0)) (xor32 (rotr32 19 (rw.getD 1 0)) (shr32 10 (rw.getD 1 0)))
    extendW (add32 (rw.getD 15 0) (add32 s0 (add32 (rw.getD 6 0) s1)) :: rw) n

/-- Big-endian 32-bit words from a 64-byte block. -/
def wordsOfBlock : List Nat → List Nat
  | b0 :: b1 :: b2 :: b3 :: rest =>
    (((b0 * 256 + b1) * 256 + b2) * 256 + b3) :: wordsOfBlock rest
  | _ => []

def sha256Compress (st : Hash8) (block : List Nat) : Hash8 :=
  let w := (extendW (wordsOfBlock block).reverse 48).reverse
  let fin := (sha256K.zip w).foldl (fun s kw => sha256Round s kw.1 kw.2) st
  ⟨add32 st.a fin.a, add32 st.b fin.b, add32 st.c fin.c, add32 st.d fin.d,
   add32 st.e fin.e, add32 st.f fin.f, add32 st.g fin.g, add32 st.h fin.h⟩

/-- SHA-256 padding: `0x80`, zeros to 56 mod 64, 8-byte big-endian bit length. -/
def sha256Pad (msg : List Nat) : List Nat :=
  let L := msg.length
  let padLen := (64 + 56 - (L + 1) % 64) % 64
  let lenBytes := (List.range 8).map (fun i => 8 * L / 2 ^ (8 * (7 - i)) % 256)
  msg ++ 128 :: List.replicate padLen 0 ++ lenBytes

/-- Split the padded message into 64-byte blocks (fueled). -/
def toBlocksAux : Nat → List Nat → List (List Nat)
  | 0, _ => []
  | _, [] => []
  | fuel + 1, l => l.take 64 :: toBlocksAux fuel (l.drop 64)

def toBlocks (l : List Nat) : List (List Nat) := toBlocksAux l.length l

def sha256Words (msg : List Nat) : List Nat :=
  match sha256H0 with
  | [a, b, c, d, e, f, g, h] =>
    let st := (toBlocks (sha256Pad msg)).foldl sha256Compress ⟨a, b, c, d, e, f, g, h⟩
    [st.a, st.b, st.c, st.d, st.e, st.f, st.g, st.h]
  | _ => []

/-- The sixteen lowercase hex digits, `0123456789abcdef`. -/
def hexDigitsLower : List Char :=
  (List.range 16).map Nat.digitChar

/-- Eight lowercase hex characters of a 32-bit word. -/
def hexOfWord (w : Nat) : List Char :=
  (List.range 8).map (fun i => hexDigitsLower.getD (w / 16 ^ (7 - i) % 16) '0')

/-- UTF-8 encoding of a character list (`str.encode()`). -/
def utf8Bytes : List Char → List Nat
  | [] => []
  | c :: rest =>
    let n := c.toNat
    (if n < 128 then [n]
     else if n < 2048 then [192 + n / 64, 128 + n % 64]
     else if n < 65536 then [224 + n / 4096, 128 + n / 64 % 64, 128 + n % 64]
     else [240 + n / 262144, 128 + n / 4096 % 64, 128 + n / 64 % 64, 128 + n % 64])
    ++ utf8Bytes rest

/-- `hashlib.sha256(s.encode()).hexdigest()`. -/
def sha256Hex (s : String) : String :=
  ⟨(sha256Words (utf8Bytes s.data)).foldr (fun w acc => hexOfWord w ++ acc) []⟩

/-- Membership in the lowercase hex alphabet of `hexdigest()`. -/
def isHexLower (c : Char) : Bool :=
  decide (c ∈ hexDigitsLower)

/-- A string with at least one character outside the lowercase hex
alphabet (every email has one, `@`, as does every formatted phone). -/
def hasNonHexChar (s : String) : Bool :=
  ! s.data.all isHexLower

/-! ## Python values and dicts

`PyVal` models the JSON-like values carried in metadata and config dicts;
dicts are insertion-ordered association lists, as Python dicts are. -/

inductive PyVal where
  | str (s : String)
  | int (n : Int)
  | bool (b : Bool)
  | null
deriving DecidableEq, Repr

/-- Python truthiness of a value. -/
def truthy : PyVal → Bool
  | .str s => s ≠ ""
  | .int n => n ≠ 0
  | .bool b => b
  | .null => false

/-- `str(value)`. -/
def pyStr : PyVal → String
  | .str s => s
  | .int n => toString n
  | .bool b => if b then "True" else "False"
  | .null => "None"

abbrev PyDict := List (String × PyVal)

/-- `d.get(k)` — first binding wins, as for a genuine dict. -/
def dictGet (d : PyDict) (k : String) : Option PyVal :=
  (d.find? (fun p => p.1 = k)).map (fun p => p.2)

/-- `d[k] = v`: overwrite in place if the key exists, else append
(Python dicts keep the original insertion position on update). -/
def dictSet (d : PyDict) (k : String) (v : PyVal) : PyDict :=
  if d.any (fun p => p.1 = k) then
    d.map (fun p => if p.1 = k then (k, v) else p)
  else d ++ [(k, v)]

/-- `d.pop(k, None)`. -/
def dictPop (d : PyDict) (k : String) : PyDict :=
  d.filter (fun p => p.1 ≠ k)

/-- `{**base, **upd}`-style update: fold the entries of `upd` into `base`. -/
def dictUpdate (base upd : PyDict) : PyDict :=
  upd.foldl (fun d p => dictSet d p.1 p.2) base

/-! ## AuditLogger._sanitize_metadata (rasa/actions/utils/audit_logger.py) -/

/-- Keys removed entirely by the sanitizer (`remove_fields` in the source). -/
def remove_fields : List String := ["password", "token", "secret", "key"]

/-- Keys whose values are hashed (`pii_fields` in the source). -/
def pii_fields : List String := ["email", "phone", "name", "customer_name", "attendee_email"]

/-- One iteration of the sanitizer's loop: drop, hash, or pass through. -/
def sanitizeEntry (k : String) (v : PyVal) : Option (String × PyVal) :=
  let keyLower := strLower k
  if keyLower ∈ remove_fields then none
  else if keyLower ∈ pii_fields ∧ truthy v then
    some (k ++ "_hash", .str ⟨(sha256Hex (pyStr v)).data.take 16⟩)
  else some (k, v)

/-- `AuditLogger._sanitize_metadata`: `None` for a falsy metadata dict,
otherwise the per-entry drop/hash/pass-through fold. -/
def sanitize_metadata (metadata : PyDict) : Option PyDict :=
  if metadata = [] then none
  else some (metadata.filterMap (fun p => sanitizeEntry p.1 p.2))

/-! ## ValidationUtils.clean_phone (rasa/actions/utils/validators.py) -/

/-- `re.sub(r'[^\d+]', '', phone)`: keep digits and plus signs. -/
def phoneKept (c : Char) : Bool := isDigitCh c || c = '+'

/-- `ValidationUtils.clean_phone`. -/
def clean_phone (phone : String) : String :=
  if phone = "" then ""
  else
    let cleaned := phone.data.filter phoneKept
    if cleaned.length = 10 then
      ⟨'(' :: cleaned.take 3 ++ ')' :: ' ' :: (cleaned.drop 3).take 3 ++ '-' :: cleaned.drop 6⟩
    else if cleaned.length = 11 ∧ cleaned.headD ' ' = '1' then
      ⟨'+' :: '1' :: ' ' :: '(' :: (cleaned.drop 1).take 3 ++ ')' :: ' ' :: (cleaned.drop 4).take 3 ++ '-' :: cleaned.drop 7⟩
    else ⟨cleaned⟩

/-- The US phone shape `(DDD) DDD-DDDD` the spec requires for 10-digit
numbers. -/
def matchUS10 : List Char → Bool
  | '(' :: a :: b :: c :: ')' :: ' ' :: d :: e :: f :: '-' :: g :: h :: i :: j :: [] =>
    [a, b, c, d, e, f, g, h, i, j].all isDigitCh
  | _ => false

/-- The US phone shape `+1 (DDD) DDD-DDDD` the spec requires for 11-digit
numbers with a leading 1. -/
def matchUS11 : List Char → Bool
  | '+' :: '1' :: ' ' :: '(' :: a :: b :: c :: ')' :: ' ' :: d :: e :: f :: '-' :: g :: h :: i :: j :: [] =>
    [a, b, c, d, e, f, g, h, i, j].all isDigitCh
  | _ => false

/-! ## Calendar arithmetic

Dates are ultimately compared and shifted through their proleptic
Gregorian ordinal, exactly `datetime.date.toordinal` (ordinal 1 =
0001-01-01, a Monday; `date.weekday()` is `(ordinal - 1) % 7`). -/

def isLeapYear (y : Nat) : Bool :=
  (y % 4 = 0 && y % 100 ≠ 0) || y % 400 = 0

def daysInMonth (y m : Nat) : Nat :=
  if m = 2 then (if isLeapYear y then 29 else 28)
  else if m = 4 ∨ m = 6 ∨ m = 9 ∨ m = 11 then 30
  else 31

def daysBeforeMonth (y m : Nat) : Nat :=
  ((List.range m).filter (fun i => 1 ≤ i)).foldl (fun acc i => acc + daysInMonth y i) 0

/-- `datetime.date(y, m, d).toordinal()`. -/
def dateOrdinal (y m d : Nat) : Nat :=
  365 * (y - 1) + (y - 1) / 4 + (y - 1) / 400 - (y - 1) / 100 + daysBeforeMonth y m + d

/-- `date.weekday()` from an ordinal (Monday = 0). -/
def weekdayOf (ordinal : Nat) : Nat := (ordinal + 6) % 7

/-! ## Relative-date helpers (rasa/actions/utils/validators.py)

`_parse_next_day` / `_parse_this_day` read only `today.weekday()` and add
a `timedelta`, so `today` is carried as its ordinal. -/

/-- The weekday table of the source, in its (insertion) iteration order. -/
def weekdaysTable : List (String × Nat) :=
  [("monday", 0), ("tuesday", 1), ("wednesday", 2), ("thursday", 3),
   ("friday", 4), ("saturday", 5), ("sunday", 6)]

/-- The `days_ahead` computation of `_parse_next_day`:
`day_num - today.weekday()`, bumped by 7 when `≤ 0`. -/
def nextDaysAhead (num wd : Nat) : Int :=
  if (num : Int) - (wd : Int) ≤ 0 then (num : Int) - (wd : Int) + 7 else (num : Int) - (wd : Int)

/-- The `days_diff` computation of `_parse_this_day`:
`day_num - today.weekday()`, bumped by 7 only when `< 0`. -/
def thisDaysDiff (num wd : Nat) : Int :=
  if (num : Int) - (wd : Int) < 0 then (num : Int) - (wd : Int) + 7 else (num : Int) - (wd : Int)

/-- `ValidationUtils._parse_next_day` (today as ordinal). -/
def parse_next_day (text : String) (today : Nat) : Option Nat :=
  match weekdaysTable.find? (fun p => strHasSub (strLower text) p.1) with
  | some p => some (today + (nextDaysAhead p.2 (weekdayOf today)).toNat)
  | none =>
    if strHasSub (strLower text) "week" then
      let daysAhead := 7 - weekdayOf today
      let daysAhead := if daysAhead = 0 then 7 else daysAhead
      some (today + daysAhead)
    else none

/-- `ValidationUtils._parse_this_day` (today as ordinal). -/
def parse_this_day (text : String) (today : Nat) : Option Nat :=
  match weekdaysTable.find? (fun p => strHasSub (strLower text) p.1) with
  | some p => some (today + (thisDaysDiff p.2 (weekdayOf today)).toNat)
  | none => none

/-! ## ValidationUtils.validate_datetime (rasa/actions/utils/validators.py) -/

/-- `datetime.strptime(s, "%Y-%m-%d").date()`: a 4-digit year, 1–2 digit
month and day in range, with the day checked against the month length;
`none` models `ValueError`. -/
def parseISODate (s : String) : Option (Nat × Nat × Nat) :=
  match splitOnCh '-' s.data with
  | [ys, ms, ds] =>
    if ys.length = 4 ∧ ys.all isDigitCh ∧
       1 ≤ ms.length ∧ ms.length ≤ 2 ∧ ms.all isDigitCh ∧
       1 ≤ ds.length ∧ ds.length ≤ 2 ∧ ds.all isDigitCh then
      let y := natOfDigits ys 0
      let m := natOfDigits ms 0
      let d := natOfDigits ds 0
      if 1 ≤ m ∧ m ≤ 12 ∧ 1 ≤ d ∧ d ≤ daysInMonth y m ∧ 1 ≤ y then
        some (y, m, d)
      else none
    else none
  | _ => none

/-- `datetime.strptime(s, "%H:%M").time()` as minutes past midnight;
`none` models `ValueError`. -/
def parseHM (s : String) : Option Nat :=
  match splitOnCh ':' s.data with
  | [hs, ms] =>
    if 1 ≤ hs.length ∧ hs.length ≤ 2 ∧ hs.all isDigitCh ∧
       1 ≤ ms.length ∧ ms.length ≤ 2 ∧ ms.all isDigitCh then
      let h := natOfDigits hs 0
      let m := natOfDigits ms 0
      if h ≤ 23 ∧ m ≤ 59 then some (60 * h + m) else none
    else none
  | _ => none

/-- The `business_hours` dict with its `start`/`end` keys (the source reads
them with defaults `"09:00"`/`"18:00"`; callers always supply both). -/
structure BusinessHours where
  start : String
  stop : String
deriving DecidableEq, Repr

structure VResult where
  valid : Bool
  message : String
deriving DecidableEq, Repr

/-- `ValidationUtils.validate_datetime` (`today` is `datetime.now().date()`
as an ordinal).  Check order follows the source: date format, past date,
blocked date (a string match on `date_str`), then the time comparison. -/
def validate_datetime (dateStr timeStr : String) (bh : BusinessHours)
    (blockedDates : List String) (today : Nat) : VResult :=
  match parseISODate dateStr with
  | none => ⟨false, "Invalid date/time format"⟩
  | some (y, m, d) =>
    if dateOrdinal y m d < today then ⟨false, "Cannot book dates in the past"⟩
    else if dateStr ∈ blockedDates then ⟨false, dateStr ++ " is not available for booking"⟩
    else
      match parseHM timeStr, parseHM bh.start, parseHM bh.stop with
      | some t, some s, some e =>
        if t < s ∨ e ≤ t then
          ⟨false, "Time must be between " ++ bh.start ++ " and " ++ bh.stop⟩
        else ⟨true, ""⟩
      | _, _, _ => ⟨false, "Invalid date/time format"⟩

/-! ## Booking-id validation
(rasa/actions/utils/validators.py, rasa/actions/validation_actions.py) -/

/-- Consume `n` ASCII digits, returning the remainder. -/
def eatDigits : Nat → List Char → Option (List Char)
  | 0, r => some r
  | _ + 1, [] => none
  | n + 1, c :: r => if isDigitCh c then eatDigits n r else none

/-- Consume the regex's optional hyphen `-?` (deterministic: a hyphen can
never begin a digit group). -/
def dropDash (r : List Char) : List Char :=
  match r with
  | c :: r2 => if c = '-' then r2 else c :: r2
  | [] => []

/-- The pattern `^BK-?\d{4}-?\d{4}$` (the source's alternative `^BK\d{8}$`
is subsumed by it). -/
def bkMatch (l : List Char) : Bool :=
  match l with
  | c1 :: c2 :: r =>
    c1 = 'B' && c2 = 'K' &&
      (match eatDigits 4 (dropDash r) with
       | some r2 =>
         match eatDigits 4 (dropDash r2) with
         | some [] => true
         | _ => false
       | none => false)
  | _ => false

/-- `ValidationUtils.is_valid_booking_id`: uppercase, then match. -/
def is_valid_booking_id (bookingId : String) : Bool :=
  if bookingId = "" then false
  else bkMatch (upperList bookingId.data)

/-- `str.replace(needle, repl)` — all occurrences, left to right,
non-overlapping (fueled by the remaining length). -/
def replaceAllAux (needle repl : List Char) : Nat → List Char → List Char
  | 0, hay => hay
  | _ + 1, [] => []
  | fuel + 1, c :: rest =>
    if needle ≠ [] ∧ leadsList needle (c :: rest) then
      repl ++ replaceAllAux needle repl fuel ((c :: rest).drop needle.length)
    else c :: replaceAllAux needle repl fuel rest

def replaceAll (needle repl hay : List Char) : List Char :=
  replaceAllAux needle repl hay.length hay

/-- Outcome of a form slot validator: the slot value it sets (or clears)
and whether a rejection message was uttered. -/
structure SlotOut where
  slot : Option String
  uttered : Bool
deriving DecidableEq, Repr

/-- The normalization block of `validate_booking_id`:
`replace("BK", "BK-")`, `replace("--", "-")`, then insert the middle
hyphen when `booking_id[3:]` has none. -/
def normalize_bk (bid : List Char) : List Char :=
  let bid := replaceAll ['-', '-'] ['-'] (replaceAll ['B', 'K'] ['B', 'K', '-'] bid)
  if ¬ ('-' ∈ bid.drop 3) then bid.take 7 ++ '-' :: bid.drop 7 else bid

/-- `ValidateBookingLookupForm.validate_booking_id`: falsy values clear the
slot silently; otherwise strip + uppercase, match, and normalize. -/
def validate_booking_id (slotValue : String) : SlotOut :=
  if slotValue = "" then ⟨none, false⟩
  else
    let bid := upperList (stripWS slotValue.data)
    if bkMatch bid then ⟨some ⟨normalize_bk bid⟩, false⟩
    else ⟨none, true⟩

/-- The canonical form `BK-DDDD-DDDD` the spec requires after
normalization. -/
def bkCanonical (l : List Char) : Bool :=
  match l with
  | x1 :: x2 :: x3 :: a :: b :: c :: d :: x4 :: e :: f :: g :: h :: [] =>
    x1 = 'B' && x2 = 'K' && x3 = '-' && x4 = '-' &&
      [a, b, c, d, e, f, g, h].all isDigitCh
  | _ => false

/-! ## ValidateBookingForm.validate_booking_time
(rasa/actions/validation_actions.py)

`ValidationUtils.parse_time` funnels every accepted input into a
`datetime` whose hour/minute pair is all the validator reads, so the
embedded validator takes the parsed `(hour, minute)` (or `none` for a
parse failure) together with the configured business hours.  The source
compares only the *hour* components: `int(business_hours["start"
].split(":")[0])` and the same for the end bound. -/

def formatHM (h m : Nat) : String :=
  ⟨pad2 h ++ ':' :: pad2 m⟩

/-- `ValidateBookingForm.validate_booking_time` after parsing.  When
`int(...)` on a bound raises (non-digit hour field), the source's broad
`except` returns the formatted time without any hours check. -/
def validate_booking_time (parsedTime : Option (Nat × Nat)) (bh : BusinessHours) : SlotOut :=
  match parsedTime with
  | none => ⟨none, true⟩
  | some (h, m) =>
    match natOfStr ((splitOnCh ':' bh.start.data).headD []),
          natOfStr ((splitOnCh ':' bh.stop.data).headD []) with
    | some startHour, some endHour =>
      if h < startHour ∨ h ≥ endHour then ⟨none, true⟩
      else ⟨some (formatHM h m), false⟩
    | _, _ => ⟨some (formatHM h m), false⟩

/-! ## BackendAPIClient._make_request (rasa/actions/utils/api_client.py)

The aiohttp call is scripted: `f i` is what the `i`-th HTTP request of the
call does (each loop iteration issues exactly one request).  The result is
the returned envelope dict together with the total seconds slept in
`asyncio.sleep`. -/

inductive HttpOutcome where
  | ok (status : Nat) (retryAfter : Option Nat) (body : PyDict)
  | timeout
  | connError

def maxRetries : Nat := 3
def retryDelay : Nat := 1

/-- `response_data.get("error", f"HTTP {status}")`. -/
def errVal (body : PyDict) (status : Nat) : PyVal :=
  match dictGet body "error" with
  | some v => v
  | none => .str ("HTTP " ++ toString status)

/-- The retry loop of `_make_request`; `fuel` is the number of remaining
iterations of `for attempt in range(self.max_retries)` and `attempt` the
current index, so callers keep `attempt = maxRetries - fuel`. -/
def makeRequestLoop (f : Nat → HttpOutcome) : Nat → Nat → Nat → PyDict × Nat
  | 0, _, slept => ([("success", .bool false), ("error", .str "Max retries exceeded")], slept)
  | fuel + 1, attempt, slept =>
    match f attempt with
    | .ok status retryAfter body =>
      if 200 ≤ status ∧ status < 300 then
        (dictUpdate [("success", .bool true)] body, slept)
      else if status = 404 then
        ([("success", .bool false), ("error", .str "Resource not found")], slept)
      else if status = 401 then
        ([("success", .bool false), ("error", .str "Authentication failed")], slept)
      else if status = 429 then
        makeRequestLoop f fuel (attempt + 1) (slept + retryAfter.getD 5)
      else
        ([("success", .bool false), ("error", errVal body status)], slept)
    | .timeout =>
      if attempt < maxRetries - 1 then
        makeRequestLoop f fuel (attempt + 1) (slept + retryDelay * 2 ^ attempt)
      else ([("success", .bool false), ("error", .str "Request timed out")], slept)
    | .connError =>
      if attempt < maxRetries - 1 then
        makeRequestLoop f fuel (attempt + 1) (slept + retryDelay * 2 ^ attempt)
      else ([("success", .bool false), ("error", .str "Connection error")], slept)

/-- `BackendAPIClient._make_request` under scripted outcomes. -/
def make_request (f : Nat → HttpOutcome) : PyDict × Nat :=
  makeRequestLoop f maxRetries 0 0

/-! ## LLMClient (rasa/actions/llm_actions.py) -/

inductive Role where
  | system
  | user
  | assistant
deriving DecidableEq, Repr

/-- The message list `LLMClient.generate` builds before dispatching to the
provider adapter. -/
def buildMessages (systemPrompt userMessage context : String) : List (Role × String) :=
  [(.system, systemPrompt)]
  ++ (if context ≠ "" then
        [(.system, "Use this context to answer the user\x27s question:\n\n" ++ context)]
      else [])
  ++ [(.user, userMessage)]

/-- The request `LLMClient._call_anthropic` sends: the separate `system`
parameter and the `messages` list. -/
structure AnthropicCall where
  system : String
  messages : List (Role × String)
deriving DecidableEq, Repr

/-- `_call_anthropic`'s construction of the provider call: `system` is the
first message's content when its role is `system` (else empty), and every
system-role message is filtered out of `messages`. -/
def callAnthropic (messages : List (Role × String)) : AnthropicCall :=
  { system := match messages with
      | (Role.system, c) :: _ => c
      | _ => ""
    messages := messages.filter (fun m => m.1 ≠ Role.system) }

/-! ## mask_api_key / get_config (admin/config/llm.py) -/

/-- `mask_api_key`. -/
def mask_api_key (key : Option String) : Option String :=
  match key with
  | none => none
  | some k =>
    if k = "" ∨ k.data.length < 8 then none
    else some ⟨k.data.take 4 ++ List.replicate (k.data.length - 8) '*' ++ k.data.drop (k.data.length - 4)⟩

/-- `mask_api_key` lifted to the dict value of the `api_key` field (the
schema stores the key as a string). -/
def maskApiKeyVal : PyVal → PyVal
  | .str s =>
    match mask_api_key (some s) with
    | some t => .str t
    | none => .null
  | _ => .null

/-- The `GET /config` handler body: set `api_key_masked`/`api_key_set`
from the (truthy) raw key, then pop the raw `api_key` field. -/
def get_config (config : PyDict) : PyDict :=
  let apiKey := dictGet config "api_key"
  let c :=
    if (apiKey.map truthy).getD false then
      dictSet (dictSet config "api_key_masked" (maskApiKeyVal (apiKey.getD .null))) "api_key_set" (.bool true)
    else
      dictSet (dictSet config "api_key_masked" .null) "api_key_set" (.bool false)
  dictPop c "api_key"

/-! ## Shared lemmas -/

theorem find?_map_overwrite (d : PyDict) (k : String) (v : PyVal) :
    List.find? (fun p => p.1 = k) (d.map (fun p => if p.1 = k then (k, v) else p)) =
      (List.find? (fun p => p.1 = k) d).map (fun _ => (k, v)) := by
  induction d with
  | nil => rfl
  | cons p d ih =>
    by_cases hp : p.1 = k
    · simp [hp, List.find?]
    · simp only [List.map_cons, if_neg hp, List.find?]
      simp only [hp, decide_False]
      exact ih

theorem find?_map_overwrite_other (d : PyDict) (k k2 : String) (v : PyVal) (h : k ≠ k2) :
    List.find? (fun p => p.1 = k) (d.map (fun p => if p.1 = k2 then (k2, v) else p)) =
      List.find? (fun p => p.1 = k) d := by
  induction d with
  | nil => rfl
  | cons p d ih =>
    by_cases hp : p.1 = k2
    · have h2 : ¬ (k2 = k) := fun hc => h hc.symm
      have h3 : ¬ (p.1 = k) := by
        rw [hp]
        exact h2
      simp [hp, List.find?, h2, h3, ih]
    · simp only [List.map_cons, if_neg hp, List.find?]
      by_cases hpk : p.1 = k
      · simp [hpk]
      · simp only [hpk, decide_False]
        exact ih

theorem find?_append_pair (p : String × PyVal → Bool) (d : List (String × PyVal)) (x : String × PyVal) :
    List.find? p (d ++ [x]) =
      (match List.find? p d with
       | some q => some q
       | none => if p x then some x else none) := by
  induction d with
  | nil =>
    simp only [List.nil_append, List.find?]
    cases hx : p x <;> simp [hx]
  | cons q d ih =>
    simp only [List.cons_append, List.find?]
    cases hq : p q <;> simp [hq, ih]

theorem find?_filter_ne (d : PyDict) (k k2 : String) (h : k ≠ k2) :
    List.find? (fun p => p.1 = k) (d.filter (fun p => p.1 ≠ k2)) =
      List.find? (fun p => p.1 = k) d := by
  induction d with
  | nil => rfl
  | cons p d ih =>
    by_cases hp : p.1 = k2
    · have h3 : ¬ ((fun p : String × PyVal => decide (p.1 = k)) p = true) := by
        simp only [decide_eq_true_eq]
        rw [hp]
        exact fun hc => h hc.symm
      rw [List.filter_cons_of_neg (by simpa using hp), List.find?_cons_of_neg d h3, ih]
    · rw [List.filter_cons_of_pos (by simpa using hp)]
      by_cases hpk : p.1 = k
      · rw [List.find?_cons_of_pos (List.filter (fun p => decide (p.1 ≠ k2)) d) (by simpa using hpk),
          List.find?_cons_of_pos d (by simpa using hpk)]
      · rw [List.find?_cons_of_neg (List.filter (fun p => decide (p.1 ≠ k2)) d) (by simpa using hpk),
          List.find?_cons_of_neg d (by simpa using hpk), ih]

theorem dictGet_dictSet_self (d : PyDict) (k : String) (v : PyVal) :
    dictGet (dictSet d k v) k = some v := by
  unfold dictGet dictSet
  by_cases h : d.any (fun p => p.1 = k)
  · rw [if_pos h, find?_map_overwrite]
    rcases List.any_eq_true.mp h with ⟨p, hp, hpk⟩
    have hs : (List.find? (fun p => decide (p.1 = k)) d).isSome := by
      rw [List.find?_isSome]
      exact ⟨p, hp, hpk⟩
    rcases Option.isSome_iff_exists.mp hs with ⟨q, hq⟩
    simp [hq]
  · rw [if_neg h, find?_append_pair]
    have hnone : List.find? (fun p => decide (p.1 = k)) d = none := by
      rw [List.find?_eq_none]
      intro p hp hc
      exact h (List.any_eq_true.mpr ⟨p, hp, hc⟩)
    simp [hnone]

theorem dictGet_dictSet_other (d : PyDict) (k k2 : String) (v : PyVal) (h : k ≠ k2) :
    dictGet (dictSet d k2 v) k = dictGet d k := by
  unfold dictGet dictSet
  by_cases hany : d.any (fun p => p.1 = k2)
  · rw [if_pos hany, find?_map_overwrite_other d k k2 v h]
  · rw [if_neg hany, find?_append_pair]
    have h2 : ¬ ((k2, v).1 = k) := fun hc => h hc.symm
    cases hf : List.find? (fun p => decide (p.1 = k)) d <;> simp [hf, h2]

theorem dictGet_dictPop_other (d : PyDict) (k k2 : String) (h : k ≠ k2) :
    dictGet (dictPop d k2) k = dictGet d k := by
  unfold dictGet dictPop
  rw [find?_filter_ne d k k2 h]

/-! ## C3 — retry behaviour of `_make_request` on 503 vs timeout -/

/-- C3 counterexample: with the backend scripted to answer 503, 503, 200,
`_make_request` returns `success:false` with the server's error after the
very first response, sleeping 0 s — a 503 is never retried, so the claimed
`success:true` outcome with ≥ 3 s of backoff does not happen. -/
theorem c3_counterexample :
    make_request (fun i => match i with
      | 0 => .ok 503 none []
      | 1 => .ok 503 none []
      | _ => .ok 200 none []) =
    ([("success", .bool false), ("error", .str "HTTP 503")], 0) := by
  decide

/-- C3 (amended): a 503 response makes `_make_request` return the failure
envelope at once, with no retry and no sleep; the 3-attempt exponential
backoff (base 1 s, so 1 + 2 = 3 s in total) applies to timeouts and
connection errors — two timeouts followed by a 200 yield `success:true`
after exactly 3 s of backoff. -/
theorem c3_retry_amended (f g : Nat → HttpOutcome) (ra : Option Nat) (body : PyDict)
    (h0 : f 0 = .ok 503 ra body)
    (g0 : g 0 = .timeout) (g1 : g 1 = .timeout) (g2 : g 2 = .ok 200 none []) :
    make_request f = ([("success", .bool false), ("error", errVal body 503)], 0) ∧
    make_request g = ([("success", .bool true)], 3) := by
  constructor
  · show makeRequestLoop f 3 0 0 = _
    rw [show (3 : Nat) = 2 + 1 from rfl]
    simp only [makeRequestLoop, h0]
    norm_num
  · show makeRequestLoop g 3 0 0 = _
    rw [show (3 : Nat) = 2 + 1 from rfl]
    simp only [makeRequestLoop, g0, g1, g2, maxRetries, retryDelay, dictUpdate]
    norm_num

/-- C3 witness: the amended retry statement instantiated on concrete
scripted backends. -/
theorem c3_retry_amended_witness :
    make_request (fun i => match i with
      | 0 => .ok 503 none [("error", .str "Service unavailable")]
      | _ => .ok 200 none []) =
      ([("success", .bool false), ("error", errVal [("error", .str "Service unavailable")] 503)], 0) ∧
    make_request (fun i => match i with
      | 0 => .timeout
      | 1 => .timeout
      | _ => .ok 200 none []) = ([("success", .bool true)], 3) :=
  c3_retry_amended _ _ none [("error", .str "Service unavailable")] rfl rfl rfl rfl

/-! ## C4 — HTTP 429 handling in `_make_request` -/

/-- C4 counterexample: three 429 responses (Retry-After 1 s each) exhaust
the `for attempt in range(3)` loop — the scripted 200 available on the
fourth request is never issued and the call fails with Max retries
exceeded, so the 429 sleep/retry does consume attempts. -/
theorem c4_counterexample :
    make_request (fun i => match i with
      | 0 => .ok 429 (some 1) []
      | 1 => .ok 429 (some 1) []
      | 2 => .ok 429 (some 1) []
      | _ => .ok 200 none []) =
    ([("success", .bool false), ("error", .str "Max retries exceeded")], 3) := by
  decide

/-- C4 (amended): on HTTP 429 `_make_request` sleeps the Retry-After value
(default 5 s when the header is absent) and retries, but the retry
consumes one of the 3 attempts: a 429 followed by a 200 succeeds after
sleeping the Retry-After, while three consecutive 429s exhaust the call
with `success:false` and Max retries exceeded after sleeping 3 × n s. -/
theorem c4_rate_limit_amended (e f g : Nat → HttpOutcome) (n : Nat) (b0 b1 b2 : PyDict)
    (e0 : e 0 = .ok 429 none b0) (e1 : e 1 = .ok 200 none [])
    (h0 : f 0 = .ok 429 (some n) b0) (h1 : f 1 = .ok 200 none [])
    (k0 : g 0 = .ok 429 (some n) b0) (k1 : g 1 = .ok 429 (some n) b1)
    (k2 : g 2 = .ok 429 (some n) b2) :
    make_request e = ([("success", .bool true)], 5) ∧
    make_request f = ([("success", .bool true)], n) ∧
    make_request g = ([("success", .bool false), ("error", .str "Max retries exceeded")], 3 * n) := by
  refine ⟨?_, ?_, ?_⟩
  · show makeRequestLoop e 3 0 0 = _
    rw [show (3 : Nat) = 2 + 1 from rfl]
    simp only [makeRequestLoop, e0, e1, dictUpdate]
    norm_num
  · show makeRequestLoop f 3 0 0 = _
    rw [show (3 : Nat) = 2 + 1 from rfl]
    simp only [makeRequestLoop, h0, h1, dictUpdate]
    norm_num
  · show makeRequestLoop g 3 0 0 = _
    rw [show (3 : Nat) = 2 + 1 from rfl]
    simp only [makeRequestLoop, k0, k1, k2]
    norm_num
    ring

/-- C4 witness: the amended 429 statement instantiated on concrete
scripted backends with Retry-After 2 s. -/
theorem c4_rate_limit_amended_witness :
    make_request (fun i => match i with
      | 0 => .ok 429 none []
      | _ => .ok 200 none []) = ([("success", .bool true)], 5) ∧
    make_request (fun i => match i with
      | 0 => .ok 429 (some 2) []
      | _ => .ok 200 none []) = ([("success", .bool true)], 2) ∧
    make_request (fun i => match i with
      | 0 => .ok 429 (some 2) []
      | 1 => .ok 429 (some 2) []
      | _ => .ok 429 (some 2) []) =
      ([("success", .bool false), ("error", .str "Max retries exceeded")], 3 * 2) :=
  c4_rate_limit_amended _ _ _ 2 [] [] [] rfl rfl rfl rfl rfl rfl rfl

/-! ## C9 — the anthropic adapter and the context message -/

/-- C9: for the anthropic provider with a non-empty context,
`generate` frames the context as a second system message, but
`_call_anthropic` keeps only the first message as the `system` parameter
and filters every system message out of `messages` — the provider call
carries only the configured system prompt and the user turn, and the
context text is dropped, contrary to the documented intent of passing
retrieved context to the model. -/
theorem c9_anthropic_context_dropped (sp um ctx : String) (h : ctx ≠ "") :
    callAnthropic (buildMessages sp um ctx) =
      { system := sp, messages := [(.user, um)] } := by
  simp [buildMessages, callAnthropic, h, List.filter]

/-- C9 witness: the dropped-context statement on a concrete prompt,
question, and retrieved context. -/
theorem c9_anthropic_context_dropped_witness :
    callAnthropic (buildMessages "You are a helpful assistant." "What are your hours?"
        "We are open 9am-5pm.") =
      { system := "You are a helpful assistant.", messages := [(.user, "What are your hours?")] } :=
  c9_anthropic_context_dropped _ _ _ (by decide)

/-! ## C10 — API-key masking on the admin read path -/

/-- C10 counterexample: for the 8-character key `****abcd` the masked
value equals the raw key, which itself contains four asterisks — the
claim that the masked value of an 8-character key contains zero asterisks
fails on keys that contain asterisks. -/
theorem c10_counterexample :
    mask_api_key (some "****abcd") = some "****abcd" ∧
    ("****abcd".data.filter (fun c => c = '*')).length = 4 := by
  decide

/-- C10 (amended): `mask_api_key` returns `None` for keys shorter than 8
characters (and the masked config read then reports `api_key_set = true`
with `api_key_masked = null` for such truthy keys); a key of exactly 8
characters masks to the raw key itself with no inserted asterisks; a key
of length n ≥ 8 masks to first 4 + (n−8) asterisks + last 4; and the
`GET /config` response never carries the raw `api_key` field. -/
theorem c10_mask_api_key_amended (k : String) (cfg : PyDict) :
    (k.data.length < 8 → mask_api_key (some k) = none) ∧
    (k.data.length = 8 → mask_api_key (some k) = some k) ∧
    (8 ≤ k.data.length →
      mask_api_key (some k) =
        some ⟨k.data.take 4 ++ List.replicate (k.data.length - 8) '*' ++
              k.data.drop (k.data.length - 4)⟩) ∧
    (∀ p ∈ get_config cfg, p.1 ≠ "api_key") ∧
    (dictGet cfg "api_key" = some (.str k) → k ≠ "" → k.data.length < 8 →
      dictGet (get_config cfg) "api_key_set" = some (.bool true) ∧
      dictGet (get_config cfg) "api_key_masked" = some .null) := by
  refine ⟨?_, ?_, ?_, ?_, ?_⟩
  · intro h
    show (if k = "" ∨ k.data.length < 8 then none else _) = none
    rw [if_pos (Or.inr h)]
  · intro h
    have hne : ¬ (k = "" ∨ k.data.length < 8) := by
      rintro (rfl | hlt)
      · simp at h
      · omega
    show (if k = "" ∨ k.data.length < 8 then none
          else some ⟨k.data.take 4 ++ List.replicate (k.data.length - 8) '*' ++
                     k.data.drop (k.data.length - 4)⟩) = some k
    rw [if_neg hne, h]
    norm_num
  · intro h
    have hne : ¬ (k = "" ∨ k.data.length < 8) := by
      rintro (rfl | hlt)
      · simp at h
      · omega
    show (if k = "" ∨ k.data.length < 8 then none else _) = _
    rw [if_neg hne]
  · intro p hp
    have := List.mem_filter.mp hp
    simpa using this.2
  · intro hget hk hlen
    have hnone : mask_api_key (some k) = none := by
      show (if k = "" ∨ k.data.length < 8 then none else _) = none
      rw [if_pos (Or.inr hlen)]
    have hmask : maskApiKeyVal (PyVal.str k) = .null := by
      show (match mask_api_key (some k) with
            | some t => PyVal.str t
            | none => PyVal.null) = PyVal.null
      rw [hnone]
    have hc : get_config cfg =
        dictPop (dictSet (dictSet cfg "api_key_masked" PyVal.null) "api_key_set"
          (PyVal.bool true)) "api_key" := by
      simp only [get_config, hget, Option.map_some', Option.getD_some]
      rw [if_pos (by simpa [truthy] using hk), hmask]
    rw [hc]
    constructor
    · rw [dictGet_dictPop_other _ _ _ (by decide)]
      rw [dictGet_dictSet_self]
    · rw [dictGet_dictPop_other _ _ _ (by decide)]
      rw [dictGet_dictSet_other _ _ _ _ (by decide)]
      rw [dictGet_dictSet_self]

/-! ## C2 — `validate_datetime` -/

/-- C2 counterexample: with `today = 2026-10-12` and a 90-day booking
window, the date 2027-06-01 lies far beyond `today + 90` days, yet
`validate_datetime` reports it valid — the function performs no
booking-window check at all. -/
theorem c2_counterexample :
    validate_datetime "2027-06-01" "10:00" ⟨"09:00", "18:00"⟩ [] (dateOrdinal 2026 10 12) =
      ⟨true, ""⟩ ∧
    dateOrdinal 2026 10 12 + 90 < dateOrdinal 2027 6 1 := by
  decide

/-- C2 (amended): for every well-formed date, time, and business-hours
pair, `validate_datetime` returns `valid = true` iff the date is not
before today, the date string is not listed in `blocked_dates`, and
`start ≤ time < end` at minute precision; the `booking_window_days` limit
is not consulted by this function (it is enforced separately by
`validate_booking_date`). -/
theorem c2_validate_datetime_amended (dateStr timeStr : String) (bh : BusinessHours)
    (blocked : List String) (today y m d t s e : Nat)
    (hd : parseISODate dateStr = some (y, m, d))
    (ht : parseHM timeStr = some t) (hs : parseHM bh.start = some s)
    (he : parseHM bh.stop = some e) :
    (validate_datetime dateStr timeStr bh blocked today).valid = true ↔
      (today ≤ dateOrdinal y m d ∧ dateStr ∉ blocked ∧ s ≤ t ∧ t < e) := by
  simp only [validate_datetime, hd, ht, hs, he]
  split_ifs with h1 h2 h3
  · exact iff_of_false (by simp) (fun hc => absurd hc.1 (by omega))
  · exact iff_of_false (by simp) (fun hc => hc.2.1 h2)
  · exact iff_of_false (by simp) (fun hc => by
      rcases hc.2.2 with ⟨hst, hte⟩
      omega)
  · exact iff_of_true rfl ⟨by omega, h2, by omega, by omega⟩

/-- C2 witness: the amended equivalence instantiated at a concrete
in-window booking and evaluated in the accepting direction. -/
theorem c2_validate_datetime_amended_witness :
    (validate_datetime "2026-11-20" "10:00" ⟨"09:00", "18:00"⟩ ["2025-12-25"]
        (dateOrdinal 2026 10 12)).valid = true :=
  (c2_validate_datetime_amended "2026-11-20" "10:00" ⟨"09:00", "18:00"⟩ ["2025-12-25"]
      (dateOrdinal 2026 10 12) 2026 11 20 600 540 1080
      (by decide) (by decide) (by decide) (by decide)).mpr
    ⟨by decide, by decide, by decide, by decide⟩

/-! ## C5 — `validate_booking_time` and business-hours granularity -/

/-- C5 counterexample: the parsed time 09:00 against business hours
09:30–18:00 is below the start bound at minute precision
(540 < 570 minutes), yet the validator fills the slot with "09:00" —
the source compares only the hour components of the bounds. -/
theorem c5_counterexample :
    validate_booking_time (some (9, 0)) ⟨"09:30", "18:00"⟩ = ⟨some "09:00", false⟩ ∧
    parseHM "09:00" = some 540 ∧ parseHM "09:30" = some 570 ∧ (540 : Nat) < 570 := by
  decide

/-- C5 (amended): for every parsed time and configured bounds,
`validate_booking_time` fills the slot with the zero-padded 24-hour form
iff `start_hour ≤ hour < end_hour`, where the bounds are the *hour*
components of `business_hours.start`/`end` (minutes of the bounds are
ignored); otherwise the slot stays unset and the business-hours message
is uttered. -/
theorem c5_booking_time_amended (h m : Nat) (bh : BusinessHours) (sh eh : Nat)
    (hs : natOfStr ((splitOnCh ':' bh.start.data).headD []) = some sh)
    (he : natOfStr ((splitOnCh ':' bh.stop.data).headD []) = some eh) :
    (sh ≤ h ∧ h < eh → validate_booking_time (some (h, m)) bh = ⟨some (formatHM h m), false⟩) ∧
    (¬ (sh ≤ h ∧ h < eh) → validate_booking_time (some (h, m)) bh = ⟨none, true⟩) := by
  constructor
  · intro hc
    simp only [validate_booking_time, hs, he]
    rw [if_neg (by omega)]
  · intro hc
    simp only [validate_booking_time, hs, he]
    rw [if_pos (by omega)]

/-! ## C7 — relative-date resolution -/

theorem weekdayOf_lt (today : Nat) : weekdayOf today < 7 := by
  unfold weekdayOf
  omega

theorem nextDaysAhead_toNat_spec (num wd : Nat) (hn : num < 7) (hw : wd < 7) :
    0 < (nextDaysAhead num wd).toNat ∧ (nextDaysAhead num wd).toNat ≤ 7 ∧
      ((nextDaysAhead num wd).toNat + wd) % 7 = num := by
  unfold nextDaysAhead
  by_cases hc : (num : Int) - (wd : Int) ≤ 0
  · rw [if_pos hc]
    omega
  · rw [if_neg hc]
    omega

theorem thisDaysDiff_toNat_spec (num wd : Nat) (hn : num < 7) (hw : wd < 7) :
    (thisDaysDiff num wd).toNat < 7 ∧ ((thisDaysDiff num wd).toNat + wd) % 7 = num := by
  unfold thisDaysDiff
  by_cases hc : (num : Int) - (wd : Int) < 0
  · rw [if_pos hc]
    omega
  · rw [if_neg hc]
    omega

theorem parse_next_day_found (text name : String) (num today : Nat)
    (hf : weekdaysTable.find? (fun q => strHasSub (strLower text) q.1) = some (name, num))
    (hn : num < 7) :
    ∃ r, parse_next_day text today = some r ∧
      weekdayOf r = num ∧ today < r ∧ r ≤ today + 7 := by
  refine ⟨today + (nextDaysAhead num (weekdayOf today)).toNat, ?_, ?_, ?_, ?_⟩
  · simp only [parse_next_day, hf]
  · have h := nextDaysAhead_toNat_spec num (weekdayOf today) hn (weekdayOf_lt today)
    unfold weekdayOf at *
    omega
  · have h := nextDaysAhead_toNat_spec num (weekdayOf today) hn (weekdayOf_lt today)
    omega
  · have h := nextDaysAhead_toNat_spec num (weekdayOf today) hn (weekdayOf_lt today)
    omega

theorem parse_this_day_found (text name : String) (num today : Nat)
    (hf : weekdaysTable.find? (fun q => strHasSub (strLower text) q.1) = some (name, num))
    (hn : num < 7) :
    ∃ r, parse_this_day text today = some r ∧
      weekdayOf r = num ∧ today ≤ r ∧ r < today + 7 := by
  refine ⟨today + (thisDaysDiff num (weekdayOf today)).toNat, ?_, ?_, ?_, ?_⟩
  · simp only [parse_this_day, hf]
  · have h := thisDaysDiff_toNat_spec num (weekdayOf today) hn (weekdayOf_lt today)
    unfold weekdayOf at *
    omega
  · omega
  · have h := thisDaysDiff_toNat_spec num (weekdayOf today) hn (weekdayOf_lt today)
    omega

/-- C7 counterexample: on a Wednesday (2026-10-14), `_parse_this_day`
resolves "this monday" to five days ahead — the Monday of the *next*
week — not to the Monday of the current Monday-starting week, which is
`today - 2`. -/
theorem c7_counterexample :
    parse_this_day "this monday" (dateOrdinal 2026 10 14) =
      some (dateOrdinal 2026 10 14 + 5) ∧
    weekdayOf (dateOrdinal 2026 10 14) = 2 ∧
    dateOrdinal 2026 10 14 + 5 ≠
      dateOrdinal 2026 10 14 - weekdayOf (dateOrdinal 2026 10 14) := by
  decide

/-- C7 (amended): for every weekday name w and every today,
`_parse_next_day "next <w>"` resolves to the coming occurrence of w
strictly more than 0 days away (so "next monday" on a Wednesday is
today + 5 and on a Monday today + 7), while `_parse_this_day "this <w>"`
resolves to the *nearest* occurrence of w counting today — today itself
when the weekday matches (so "this monday" on a Monday is today), and
otherwise the coming occurrence, which falls in the next Monday-starting
week whenever w is earlier in the week than today. -/
theorem c7_relative_dates_amended :
    (∀ p ∈ weekdaysTable, ∀ today : Nat, ∃ r,
        parse_next_day ("next " ++ p.1) today = some r ∧
        weekdayOf r = p.2 ∧ today < r ∧ r ≤ today + 7) ∧
    (∀ p ∈ weekdaysTable, ∀ today : Nat, ∃ r,
        parse_this_day ("this " ++ p.1) today = some r ∧
        weekdayOf r = p.2 ∧ today ≤ r ∧ r < today + 7) ∧
    (∀ today : Nat, weekdayOf today = 2 →
        parse_next_day "next monday" today = some (today + 5)) ∧
    (∀ today : Nat, weekdayOf today = 0 →
        parse_next_day "next monday" today = some (today + 7)) ∧
    (∀ today : Nat, weekdayOf today = 0 →
        parse_this_day "this monday" today = some today) := by
  refine ⟨?_, ?_, ?_, ?_, ?_⟩
  · intro p hp today
    simp only [weekdaysTable, List.mem_cons, List.not_mem_nil, or_false] at hp
    rcases hp with rfl | rfl | rfl | rfl | rfl | rfl | rfl
    · exact parse_next_day_found _ "monday" _ today (by decide) (by decide)
    · exact parse_next_day_found _ "tuesday" _ today (by decide) (by decide)
    · exact parse_next_day_found _ "wednesday" _ today (by decide) (by decide)
    · exact parse_next_day_found _ "thursday" _ today (by decide) (by decide)
    · exact parse_next_day_found _ "friday" _ today (by decide) (by decide)
    · exact parse_next_day_found _ "saturday" _ today (by decide) (by decide)
    · exact parse_next_day_found _ "sunday" _ today (by decide) (by decide)
  · intro p hp today
    simp only [weekdaysTable, List.mem_cons, List.not_mem_nil, or_false] at hp
    rcases hp with rfl | rfl | rfl | rfl | rfl | rfl | rfl
    · exact parse_this_day_found _ "monday" _ today (by decide) (by decide)
    · exact parse_this_day_found _ "tuesday" _ today (by decide) (by decide)
    · exact parse_this_day_found _ "wednesday" _ today (by decide) (by decide)
    · exact parse_this_day_found _ "thursday" _ today (by decide) (by decide)
    · exact parse_this_day_found _ "friday" _ today (by decide) (by decide)
    · exact parse_this_day_found _ "saturday" _ today (by decide) (by decide)
    · exact parse_this_day_found _ "sunday" _ today (by decide) (by decide)
  · intro today h2
    have hf : weekdaysTable.find? (fun q => strHasSub (strLower "next monday") q.1) =
        some ("monday", 0) := by decide
    simp only [parse_next_day, hf, h2]
    norm_num [nextDaysAhead]
    decide
  · intro today h0
    have hf : weekdaysTable.find? (fun q => strHasSub (strLower "next monday") q.1) =
        some ("monday", 0) := by decide
    simp only [parse_next_day, hf, h0]
    norm_num [nextDaysAhead]
    decide
  · intro today h0
    have hf : weekdaysTable.find? (fun q => strHasSub (strLower "this monday") q.1) =
        some ("monday", 0) := by decide
    simp only [parse_this_day, hf, h0]
    norm_num [thisDaysDiff]

/-- C7 witness: the amended statement at the concrete Wednesday
2026-10-14 and Monday 2026-10-12. -/
theorem c7_relative_dates_amended_witness :
    (∃ r, parse_next_day "next friday" (dateOrdinal 2026 10 14) = some r ∧
        weekdayOf r = 4 ∧ dateOrdinal 2026 10 14 < r ∧ r ≤ dateOrdinal 2026 10 14 + 7) ∧
    parse_next_day "next monday" (dateOrdinal 2026 10 14) =
      some (dateOrdinal 2026 10 14 + 5) ∧
    parse_next_day "next monday" (dateOrdinal 2026 10 12) =
      some (dateOrdinal 2026 10 12 + 7) ∧
    parse_this_day "this monday" (dateOrdinal 2026 10 12) =
      some (dateOrdinal 2026 10 12) :=
  ⟨c7_relative_dates_amended.1 ("friday", 4) (by decide) _,
   c7_relative_dates_amended.2.2.1 _ (by decide),
   c7_relative_dates_amended.2.2.2.1 _ (by decide),
   c7_relative_dates_amended.2.2.2.2 _ (by decide)⟩

/-- C5 witness: the amended statement at 14:00 (accepted) and 08:30
(rejected) against business hours 09:00–18:00. -/
theorem c5_booking_time_amended_witness :
    validate_booking_time (some (14, 0)) ⟨"09:00", "18:00"⟩ = ⟨some (formatHM 14 0), false⟩ ∧
    validate_booking_time (some (8, 30)) ⟨"09:00", "18:00"⟩ = ⟨none, true⟩ :=
  ⟨(c5_booking_time_amended 14 0 ⟨"09:00", "18:00"⟩ 9 18 (by decide) (by decide)).1
      (by decide),
   (c5_booking_time_amended 8 30 ⟨"09:00", "18:00"⟩ 9 18 (by decide) (by decide)).2
      (by decide)⟩

/-! ## C8 — `clean_phone` -/

theorem filter_phoneKept_eq (l : List Char) (h : '+' ∉ l) :
    l.filter phoneKept = l.filter isDigitCh := by
  induction l with
  | nil => rfl
  | cons c l ih =>
    have hc : ¬ (c = '+') := fun hcc => h (hcc ▸ List.mem_cons_self c l)
    have heq : phoneKept c = isDigitCh c := by
      simp [phoneKept, hc]
    rw [List.filter_cons, List.filter_cons, heq,
      ih (fun hm => h (List.mem_cons_of_mem c hm))]

theorem length_destruct10 (l : List Char) (h : l.length = 10) :
    ∃ c0 c1 c2 c3 c4 c5 c6 c7 c8 c9,
      l = [c0, c1, c2, c3, c4, c5, c6, c7, c8, c9] := by
  rcases l with _ | ⟨c0, l⟩
  · simp only [List.length_nil] at h
    omega
  rcases l with _ | ⟨c1, l⟩
  · simp only [List.length_cons, List.length_nil] at h
    omega
  rcases l with _ | ⟨c2, l⟩
  · simp only [List.length_cons, List.length_nil] at h
    omega
  rcases l with _ | ⟨c3, l⟩
  · simp only [List.length_cons, List.length_nil] at h
    omega
  rcases l with _ | ⟨c4, l⟩
  · simp only [List.length_cons, List.length_nil] at h
    omega
  rcases l with _ | ⟨c5, l⟩
  · simp only [List.length_cons, List.length_nil] at h
    omega
  rcases l with _ | ⟨c6, l⟩
  · simp only [List.length_cons, List.length_nil] at h
    omega
  rcases l with _ | ⟨c7, l⟩
  · simp only [List.length_cons, List.length_nil] at h
    omega
  rcases l with _ | ⟨c8, l⟩
  · simp only [List.length_cons, List.length_nil] at h
    omega
  rcases l with _ | ⟨c9, l⟩
  · simp only [List.length_cons, List.length_nil] at h
    omega
  rcases l with _ | ⟨c10, l⟩
  · exact ⟨c0, c1, c2, c3, c4, c5, c6, c7, c8, c9, rfl⟩
  · simp only [List.length_cons, List.length_nil] at h
    omega

/-- C8 counterexample: `clean_phone` strips everything except digits *and
plus signs*; for "+1 (555) 123-4567" — whose separator-stripped digits
are the 11 digits 15551234567 with a leading 1 — the retained plus makes
the cleaned string 12 characters long, so the code returns the unformatted
"+15551234567" rather than the claimed `+1 (DDD) DDD-DDDD` shape. -/
theorem c8_counterexample :
    clean_phone "+1 (555) 123-4567" = "+15551234567" ∧
    ("+1 (555) 123-4567".data.filter isDigitCh).length = 11 ∧
    ("+1 (555) 123-4567".data.filter isDigitCh).headD ' ' = '1' ∧
    clean_phone "+1 (555) 123-4567" ≠ "+1 (555) 123-4567" := by
  decide

/-- C8 (amended): for inputs containing no plus sign, `clean_phone`
formats exactly 10 digits as `(DDD) DDD-DDDD`, exactly 11 digits starting
with 1 as `+1 (DDD) DDD-DDDD`, and returns the bare digits otherwise;
inputs containing a plus sign keep it in the cleaned string (the
stripping regex preserves `+`), so they fall outside the two formatted
shapes whenever the plus makes the cleaned length differ. -/
theorem c8_clean_phone_amended (p : String) (hne : p ≠ "") (hplus : '+' ∉ p.data) :
    ((p.data.filter isDigitCh).length = 10 → matchUS10 (clean_phone p).data = true) ∧
    ((p.data.filter isDigitCh).length = 11 ∧ (p.data.filter isDigitCh).headD ' ' = '1' →
      matchUS11 (clean_phone p).data = true) ∧
    ((p.data.filter isDigitCh).length ≠ 10 →
      ¬ ((p.data.filter isDigitCh).length = 11 ∧ (p.data.filter isDigitCh).headD ' ' = '1') →
      clean_phone p = ⟨p.data.filter isDigitCh⟩) := by
  have hfk : p.data.filter phoneKept = p.data.filter isDigitCh :=
    filter_phoneKept_eq _ hplus
  refine ⟨?_, ?_, ?_⟩
  · intro hlen
    obtain ⟨c0, c1, c2, c3, c4, c5, c6, c7, c8, c9, hl⟩ := length_destruct10 _ hlen
    have hall : ([c0, c1, c2, c3, c4, c5, c6, c7, c8, c9].all isDigitCh) = true := by
      rw [← hl, List.all_eq_true]
      intro c hc
      exact List.of_mem_filter hc
    simp only [clean_phone, if_neg hne, hfk, hl]
    norm_num [List.take, List.drop, matchUS10]
    simpa using hall
  · rintro ⟨hlen, hhead⟩
    rcases hh : p.data.filter isDigitCh with _ | ⟨c0, rest⟩
    · rw [hh] at hlen
      simp at hlen
    have hrl : rest.length = 10 := by
      rw [hh] at hlen
      simpa using hlen
    obtain ⟨c1, c2, c3, c4, c5, c6, c7, c8, c9, c10, hl⟩ := length_destruct10 _ hrl
    have hc0 : c0 = '1' := by
      rw [hh] at hhead
      simpa using hhead
    have hall : ([c1, c2, c3, c4, c5, c6, c7, c8, c9, c10].all isDigitCh) = true := by
      rw [List.all_eq_true]
      intro c hc
      have : c ∈ p.data.filter isDigitCh := by
        rw [hh, hl]
        exact List.mem_cons_of_mem _ hc
      exact List.of_mem_filter this
    simp only [clean_phone, if_neg hne, hfk, hh, hl, hc0]
    norm_num [List.take, List.drop, matchUS11]
    simpa using hall
  · intro h10 h11
    simp only [clean_phone, if_neg hne, hfk]
    rw [if_neg h10, if_neg h11]

/-- C8 witness: the amended statement at a 10-digit, an 11-digit, and an
8-digit concrete input. -/
theorem c8_clean_phone_amended_witness :
    matchUS10 (clean_phone "555-123-4567").data = true ∧
    matchUS11 (clean_phone "1 555 123 4567").data = true ∧
    clean_phone "12345678" = ⟨"12345678".data.filter isDigitCh⟩ :=
  ⟨(c8_clean_phone_amended "555-123-4567" (by decide) (by decide)).1 (by decide),
   (c8_clean_phone_amended "1 555 123 4567" (by decide) (by decide)).2.1 (by decide),
   (c8_clean_phone_amended "12345678" (by decide) (by decide)).2.2 (by decide) (by decide)⟩

/-! ## C1 — audit-metadata sanitization -/

theorem leadsList_mem (nd l : List Char) (h : leadsList nd l = true) :
    ∀ c ∈ nd, c ∈ l := by
  induction nd generalizing l with
  | nil => intro c hc; cases hc
  | cons a nd ih =>
    cases l with
    | nil => cases h
    | cons b l =>
      rw [show leadsList (a :: nd) (b :: l) =
          (if a = b then leadsList nd l else false) from rfl] at h
      by_cases hab : a = b
      · rw [if_pos hab] at h
        intro c hc
        rcases List.mem_cons.mp hc with rfl | hc2
        · exact hab ▸ List.mem_cons_self _ _
        · exact List.mem_cons_of_mem _ (ih l h c hc2)
      · rw [if_neg hab] at h
        cases h

theorem hasSub_mem (nd hay : List Char) (h : hasSub nd hay = true) :
    ∀ c ∈ nd, c ∈ hay := by
  induction hay with
  | nil =>
    intro c hc
    simp only [hasSub] at h
    exact absurd (leadsList_mem nd [] h c hc) (List.not_mem_nil c)
  | cons b hay ih =>
    simp only [hasSub, Bool.or_eq_true] at h
    intro c hc
    rcases h with h | h
    · exact leadsList_mem _ _ h c hc
    · exact List.mem_cons_of_mem _ (ih h c hc)

theorem getD_hex (i : Nat) : isHexLower (hexDigitsLower.getD i '0') = true := by
  by_cases hi : i < 16
  · interval_cases i <;> decide
  · rw [List.getD_eq_default _ _ (by simpa [hexDigitsLower] using le_of_not_lt hi)]
    decide

theorem hexOfWord_all (w : Nat) : (hexOfWord w).all isHexLower = true := by
  rw [List.all_eq_true]
  intro c hc
  rcases List.mem_map.mp hc with ⟨i, _, rfl⟩
  exact getD_hex _

theorem sha256Hex_all_hex (s : String) : (sha256Hex s).data.all isHexLower = true := by
  show ((sha256Words (utf8Bytes s.data)).foldr (fun w acc => hexOfWord w ++ acc) []).all
      isHexLower = true
  induction sha256Words (utf8Bytes s.data) with
  | nil => rfl
  | cons w ws ih =>
    simp only [List.foldr_cons, List.all_append, Bool.and_eq_true]
    exact ⟨hexOfWord_all w, ih⟩

theorem all_take (l : List Char) (n : Nat) (h : l.all isHexLower = true) :
    (l.take n).all isHexLower = true := by
  rw [List.all_eq_true] at h ⊢
  intro c hc
  exact h c (List.take_subset n l hc)

theorem strLower_append (a b : String) :
    strLower (a ++ b) = strLower a ++ strLower b := by
  show String.mk ((a.data ++ b.data).map Char.toLower) = _
  rw [List.map_append]
  rfl

theorem remove_field_not_hash (rf : String) (hrf : rf ∈ remove_fields) (x : String) :
    rf ≠ x ++ "_hash" := by
  intro he
  have hd : rf.data.reverse.headD ' ' = (x ++ "_hash").data.reverse.headD ' ' := by
    rw [he]
  have hr : (x ++ "_hash").data.reverse.headD ' ' = 'h' := by
    show (x.data ++ "_hash".data).reverse.headD ' ' = 'h'
    rw [List.reverse_append]
    rfl
  rw [hr] at hd
  simp only [remove_fields, List.mem_cons, List.not_mem_nil, or_false] at hrf
  rcases hrf with rfl | rfl | rfl | rfl <;> exact absurd hd (by decide)

theorem pii_not_remove (s : String) (h : s ∈ pii_fields) : s ∉ remove_fields := by
  simp only [pii_fields, List.mem_cons, List.not_mem_nil, or_false] at h
  rcases h with rfl | rfl | rfl | rfl | rfl <;> decide

theorem sanitizeEntry_remove (k : String) (v : PyVal) (h : strLower k ∈ remove_fields) :
    sanitizeEntry k v = none := by
  unfold sanitizeEntry
  rw [if_pos h]

theorem sanitizeEntry_pii (k : String) (v : PyVal)
    (h2 : strLower k ∈ pii_fields ∧ truthy v = true) :
    sanitizeEntry k v = some (k ++ "_hash", .str ⟨(sha256Hex (pyStr v)).data.take 16⟩) := by
  unfold sanitizeEntry
  rw [if_neg (fun hr => pii_not_remove _ h2.1 hr), if_pos h2]

theorem sanitizeEntry_pass (k : String) (v : PyVal)
    (h1 : strLower k ∉ remove_fields) (h2 : ¬ (strLower k ∈ pii_fields ∧ truthy v = true)) :
    sanitizeEntry k v = some (k, v) := by
  unfold sanitizeEntry
  rw [if_neg h1, if_neg h2]

theorem sanitizeEntry_eq_some (k2 : String) (v2 : PyVal) (q : String × PyVal)
    (h : sanitizeEntry k2 v2 = some q) :
    strLower k2 ∉ remove_fields ∧
      ((strLower k2 ∈ pii_fields ∧ truthy v2 = true) ∧
          q = (k2 ++ "_hash", .str ⟨(sha256Hex (pyStr v2)).data.take 16⟩) ∨
        ¬ (strLower k2 ∈ pii_fields ∧ truthy v2 = true) ∧ q = (k2, v2)) := by
  by_cases h1 : strLower k2 ∈ remove_fields
  · rw [sanitizeEntry_remove _ _ h1] at h
    cases h
  by_cases h2 : strLower k2 ∈ pii_fields ∧ truthy v2 = true
  · rw [sanitizeEntry_pii _ _ h2] at h
    exact ⟨h1, Or.inl ⟨h2, (Option.some.inj h).symm⟩⟩
  · rw [sanitizeEntry_pass _ _ h1 h2] at h
    exact ⟨h1, Or.inr ⟨h2, (Option.some.inj h).symm⟩⟩

/-- C1 counterexample: the sanitizer matches keys *exactly*
(case-insensitively), not by containment — `api_key`, which contains
`key`, passes through untouched, and a raw email passed under the
unrecognized key `contact` survives verbatim in the sanitized record. -/
theorem c1_counterexample :
    sanitize_metadata [("api_key", .str "sk-12345"), ("contact", .str "jane@ex.com")] =
      some [("api_key", .str "sk-12345"), ("contact", .str "jane@ex.com")] ∧
    strHasSub "api_key" "key" = true ∧
    strHasSub "jane@ex.com" "jane@ex.com" = true := by
  decide

/-- C1 (amended): for every non-empty metadata dict the sanitizer drops
every entry whose key equals (case-insensitively) password/token/
secret/key; rewrites every entry whose key equals email/phone/name/
customer_name/attendee_email with a truthy value into `<key>_hash`
holding the first 16 hex characters of SHA-256 of the value; passes all
other entries through unchanged; and any value that occurs in the
metadata only under those PII keys — and contains at least one non-hex
character, as every email or formatted phone does — appears in no value
of the sanitized record, not even as a substring. -/
theorem c1_sanitize_metadata_amended (m : PyDict) (hm : m ≠ []) :
    ∃ out, sanitize_metadata m = some out ∧
      (∀ k v, (k, v) ∈ m → strLower k ∈ remove_fields → ∀ w, (k, w) ∉ out) ∧
      (∀ k v, (k, v) ∈ m → strLower k ∈ pii_fields → truthy v = true →
        (k ++ "_hash", PyVal.str ⟨(sha256Hex (pyStr v)).data.take 16⟩) ∈ out) ∧
      (∀ k v, (k, v) ∈ m → strLower k ∉ remove_fields →
        ¬ (strLower k ∈ pii_fields ∧ truthy v = true) → (k, v) ∈ out) ∧
      (∀ s : String, hasNonHexChar s = true →
        (∀ k v, (k, v) ∈ m → strHasSub (pyStr v) s = true →
          strLower k ∈ pii_fields ∧ truthy v = true) →
        ∀ k2 w, (k2, w) ∈ out → strHasSub (pyStr w) s = false) := by
  refine ⟨m.filterMap (fun p => sanitizeEntry p.1 p.2), ?_, ?_, ?_, ?_, ?_⟩
  · unfold sanitize_metadata
    rw [if_neg hm]
  · intro k v hkv hrem w hw
    rcases List.mem_filterMap.mp hw with ⟨⟨k2, v2⟩, _, hsan⟩
    rcases sanitizeEntry_eq_some k2 v2 _ hsan with ⟨hnr, hcase⟩
    rcases hcase with ⟨_, hq⟩ | ⟨_, hq⟩
    · have hk : k = k2 ++ "_hash" := congrArg Prod.fst hq
      have heq : strLower k = strLower k2 ++ "_hash" := by
        rw [hk, strLower_append, show strLower "_hash" = "_hash" from by decide]
      exact remove_field_not_hash _ hrem (strLower k2) heq
    · have hk : k = k2 := congrArg Prod.fst hq
      exact hnr (hk ▸ hrem)
  · intro k v hkv hpii htr
    exact List.mem_filterMap.mpr ⟨(k, v), hkv, sanitizeEntry_pii k v ⟨hpii, htr⟩⟩
  · intro k v hkv h1 h2
    exact List.mem_filterMap.mpr ⟨(k, v), hkv, sanitizeEntry_pass k v h1 h2⟩
  · intro s hnh honly k2 w hw
    rcases List.mem_filterMap.mp hw with ⟨⟨k3, v3⟩, hmem, hsan⟩
    rcases sanitizeEntry_eq_some k3 v3 _ hsan with ⟨hnr, hcase⟩
    rcases hcase with ⟨_, hq⟩ | ⟨hno, hq⟩
    · have hwv : w = PyVal.str ⟨(sha256Hex (pyStr v3)).data.take 16⟩ :=
        congrArg Prod.snd hq
      subst hwv
      by_contra hc
      rw [Bool.not_eq_false] at hc
      have hall : ((sha256Hex (pyStr v3)).data.take 16).all isHexLower = true :=
        all_take _ _ (sha256Hex_all_hex _)
      rw [List.all_eq_true] at hall
      have hsubchars := hasSub_mem s.data ((sha256Hex (pyStr v3)).data.take 16) hc
      have : s.data.all isHexLower = true := by
        rw [List.all_eq_true]
        intro c hcs
        exact hall c (hsubchars c hcs)
      unfold hasNonHexChar at hnh
      rw [this] at hnh
      cases hnh
    · have hwv : w = v3 := congrArg Prod.snd hq
      subst hwv
      by_contra hc
      rw [Bool.not_eq_false] at hc
      exact hno (honly k3 w hmem hc)

/-- C1 witness: the amended sanitization statement at a concrete
metadata dict carrying an email, a password, and a note. -/
theorem c1_sanitize_metadata_amended_witness :
    ∃ out,
      sanitize_metadata [("email", .str "jane@ex.com"), ("password", .str "pw"),
        ("note", .str "hi")] = some out ∧
      (∀ w, ("password", w) ∉ out) ∧
      ("email" ++ "_hash", PyVal.str ⟨(sha256Hex (pyStr (.str "jane@ex.com"))).data.take 16⟩) ∈ out ∧
      ("note", PyVal.str "hi") ∈ out ∧
      (∀ k2 w, (k2, w) ∈ out → strHasSub (pyStr w) "jane@ex.com" = false) := by
  obtain ⟨out, hout, hdrop, hhash, hpass, hraw⟩ :=
    c1_sanitize_metadata_amended
      [("email", .str "jane@ex.com"), ("password", .str "pw"), ("note", .str "hi")]
      (by decide)
  refine ⟨out, hout, ?_, ?_, ?_, ?_⟩
  · exact fun w => hdrop "password" (.str "pw") (by decide) (by decide) w
  · exact hhash "email" (.str "jane@ex.com") (by decide) (by decide) (by decide)
  · exact hpass "note" (.str "hi") (by decide) (by decide) (by decide)
  · refine hraw "jane@ex.com" (by decide) ?_
    intro k v hkv hsub
    simp only [List.mem_cons, List.not_mem_nil, or_false, Prod.mk.injEq] at hkv
    rcases hkv with ⟨rfl, rfl⟩ | ⟨rfl, rfl⟩ | ⟨rfl, rfl⟩
    · exact ⟨by decide, by decide⟩
    · exact absurd hsub (by decide)
    · exact absurd hsub (by decide)

/-! ## C6 — booking-id validation and normalization -/

theorem eatDigits_succ_inv (n : Nat) (r r' : List Char) (h : eatDigits (n + 1) r = some r') :
    ∃ a r2, r = a :: r2 ∧ isDigitCh a = true ∧ eatDigits n r2 = some r' := by
  rcases r with _ | ⟨a, r2⟩
  · simp [eatDigits] at h
  · by_cases ha : isDigitCh a = true
    · refine ⟨a, r2, rfl, ha, ?_⟩
      simpa [eatDigits, ha] using h
    · simp [eatDigits, ha] at h

theorem eatDigits_four_inv (r r' : List Char) (h : eatDigits 4 r = some r') :
    ∃ a b c d, r = a :: b :: c :: d :: r' ∧ isDigitCh a = true ∧ isDigitCh b = true ∧
      isDigitCh c = true ∧ isDigitCh d = true := by
  obtain ⟨a, r1, rfl, ha, h⟩ := eatDigits_succ_inv 3 _ _ h
  obtain ⟨b, r2, rfl, hb, h⟩ := eatDigits_succ_inv 2 _ _ h
  obtain ⟨c, r3, rfl, hc, h⟩ := eatDigits_succ_inv 1 _ _ h
  obtain ⟨d, r4, rfl, hd, h⟩ := eatDigits_succ_inv 0 _ _ h
  have hr : r4 = r' := Option.some.inj h
  subst hr
  exact ⟨a, b, c, d, rfl, ha, hb, hc, hd⟩

theorem dropDash_cases (r : List Char) :
    (∃ r2, r = '-' :: r2 ∧ dropDash r = r2) ∨ dropDash r = r := by
  cases r with
  | nil => exact Or.inr rfl
  | cons c r2 =>
    by_cases hc : c = '-'
    · subst hc
      exact Or.inl ⟨r2, rfl, by simp [dropDash]⟩
    · exact Or.inr (by simp [dropDash, hc])

theorem bkMatch_inv (l : List Char) (h : bkMatch l = true) :
    ∃ a b c d e f g h2 : Char,
      isDigitCh a = true ∧ isDigitCh b = true ∧ isDigitCh c = true ∧ isDigitCh d = true ∧
      isDigitCh e = true ∧ isDigitCh f = true ∧ isDigitCh g = true ∧ isDigitCh h2 = true ∧
      (l = ['B', 'K', a, b, c, d, e, f, g, h2] ∨
       l = ['B', 'K', '-', a, b, c, d, e, f, g, h2] ∨
       l = ['B', 'K', a, b, c, d, '-', e, f, g, h2] ∨
       l = ['B', 'K', '-', a, b, c, d, '-', e, f, g, h2]) := by
  rcases l with _ | ⟨c1, l⟩
  · simp [bkMatch] at h
  rcases l with _ | ⟨c2, r⟩
  · simp [bkMatch] at h
  simp only [bkMatch, Bool.and_eq_true, decide_eq_true_eq] at h
  obtain ⟨⟨hB, hK⟩, hX⟩ := h
  subst hB
  subst hK
  rcases h1 : eatDigits 4 (dropDash r) with _ | r2
  · rw [h1] at hX
    exact Bool.noConfusion hX
  have hX2 : (match eatDigits 4 (dropDash r2) with
      | some [] => true
      | _ => false) = true := by
    rw [h1] at hX
    exact hX
  rcases h2 : eatDigits 4 (dropDash r2) with _ | r3
  · rw [h2] at hX2
    exact Bool.noConfusion hX2
  rcases r3 with _ | ⟨x, r4⟩
  swap
  · rw [h2] at hX2
    exact Bool.noConfusion hX2
  obtain ⟨a, b, c, d, hr, ha, hb, hc, hd⟩ := eatDigits_four_inv _ _ h1
  obtain ⟨e, f, g, h2c, hr2, he, hf, hg, hh⟩ := eatDigits_four_inv _ _ h2
  refine ⟨a, b, c, d, e, f, g, h2c, ha, hb, hc, hd, he, hf, hg, hh, ?_⟩
  rcases dropDash_cases r with ⟨rr, hrr, hdd⟩ | hdd <;>
    rcases dropDash_cases r2 with ⟨rr2, hrr2, hdd2⟩ | hdd2
  · rw [hdd] at hr
    rw [hdd2] at hr2
    subst hr
    subst hr2
    subst hrr2
    subst hrr
    exact Or.inr (Or.inr (Or.inr rfl))
  · rw [hdd] at hr
    rw [hdd2] at hr2
    subst hr2
    subst hr
    subst hrr
    exact Or.inr (Or.inl rfl)
  · rw [hdd] at hr
    rw [hdd2] at hr2
    subst hr2
    subst hrr2
    subst hr
    exact Or.inr (Or.inr (Or.inl rfl))
  · rw [hdd] at hr
    rw [hdd2] at hr2
    subst hr2
    subst hr
    exact Or.inl rfl

theorem digit_facts (c : Char) (h : isDigitCh c = true) : 'B' ≠ c ∧ '-' ≠ c := by
  constructor <;> (intro hx; rw [← hx] at h; exact absurd h (by decide))

theorem normalize_bk_canonical (l : List Char) (h : bkMatch l = true) :
    bkCanonical (normalize_bk l) = true := by
  obtain ⟨a, b, c, d, e, f, g, h2, ha, hb, hc, hd, he, hf, hg, hh, hshape⟩ := bkMatch_inv l h
  obtain ⟨Ba, Da⟩ := digit_facts a ha
  obtain ⟨Bb, Db⟩ := digit_facts b hb
  obtain ⟨Bc, Dc⟩ := digit_facts c hc
  obtain ⟨Bd, Dd⟩ := digit_facts d hd
  obtain ⟨Be, De⟩ := digit_facts e he
  obtain ⟨Bf, Df⟩ := digit_facts f hf
  obtain ⟨Bg, Dg⟩ := digit_facts g hg
  obtain ⟨Bh, Dh⟩ := digit_facts h2 hh
  rcases hshape with rfl | rfl | rfl | rfl <;>
    simp [normalize_bk, replaceAll, replaceAllAux, leadsList, bkCanonical,
      Ba, Da, Bb, Db, Bc, Dc, Bd, Dd, Be, De, Bf, Df, Bg, Dg, Bh, Dh,
      ha, hb, hc, hd, he, hf, hg, hh]

/-- C6 counterexample: `validate_booking_id` strips surrounding
whitespace before matching, so the input `" BK-1234-5678"` — which does
not itself match `BK-?\d{4}-?\d{4}` case-insensitively — is accepted; and
the empty input is rejected silently, with no format hint uttered. -/
theorem c6_counterexample :
    validate_booking_id " BK-1234-5678" = ⟨some "BK-1234-5678", false⟩ ∧
    bkMatch (upperList " BK-1234-5678".data) = false ∧
    validate_booking_id "" = ⟨none, false⟩ := by
  decide

/-- C6 (amended): for every non-empty input, the booking-id validator
accepts exactly the inputs whose whitespace-trimmed uppercased form
matches `BK-?\d{4}-?\d{4}`, and every accepted input yields a slot value
matching exactly `BK-DDDD-DDDD` with no message; every rejected non-empty
input leaves the slot unset with a format hint (the empty input is
cleared silently). -/
theorem c6_booking_id_amended (s : String) (hs : s ≠ "") :
    (bkMatch (upperList (stripWS s.data)) = true →
      ∃ v, validate_booking_id s = ⟨some v, false⟩ ∧ bkCanonical v.data = true) ∧
    (bkMatch (upperList (stripWS s.data)) = false →
      validate_booking_id s = ⟨none, true⟩) := by
  constructor
  · intro hm
    refine ⟨⟨normalize_bk (upperList (stripWS s.data))⟩, ?_, ?_⟩
    · show (if s = "" then (⟨none, false⟩ : SlotOut) else _) = _
      rw [if_neg hs, if_pos hm]
    · exact normalize_bk_canonical _ hm
  · intro hm
    show (if s = "" then (⟨none, false⟩ : SlotOut) else _) = _
    rw [if_neg hs, if_neg (by rw [hm]; exact Bool.false_ne_true)]

/-- C6 witness: the amended statement at the accepted input
`"bk12345678"` and the rejected input `"BK-123-45678"`. -/
theorem c6_booking_id_amended_witness :
    (∃ v, validate_booking_id "bk12345678" = ⟨some v, false⟩ ∧ bkCanonical v.data = true) ∧
    validate_booking_id "BK-123-45678" = ⟨none, true⟩ :=
  ⟨(c6_booking_id_amended "bk12345678" (by decide)).1 (by decide),
   (c6_booking_id_amended "BK-123-45678" (by decide)).2 (by decide)⟩

/-- C10 witness: the amended masking statement at concrete keys of
lengths 5, 8, and 15 and a concrete config with a short truthy key. -/
theorem c10_mask_api_key_amended_witness :
    mask_api_key (some "short") = none ∧
    mask_api_key (some "12345678") = some "12345678" ∧
    mask_api_key (some "sk-abcd1234wxyz") =
      some ⟨"sk-abcd1234wxyz".data.take 4 ++
            List.replicate ("sk-abcd1234wxyz".data.length - 8) '*' ++
            "sk-abcd1234wxyz".data.drop ("sk-abcd1234wxyz".data.length - 4)⟩ ∧
    (∀ p ∈ get_config [("provider", .str "openai"), ("api_key", .str "short")], p.1 ≠ "api_key") ∧
    dictGet (get_config [("provider", .str "openai"), ("api_key", .str "short")]) "api_key_set" =
      some (.bool true) ∧
    dictGet (get_config [("provider", .str "openai"), ("api_key", .str "short")]) "api_key_masked" =
      some .null := by
  have h1 := c10_mask_api_key_amended "short" [("provider", .str "openai"), ("api_key", .str "short")]
  have h2 := c10_mask_api_key_amended "12345678" []
  have h3 := c10_mask_api_key_amended "sk-abcd1234wxyz" []
  have h5 := h1.2.2.2.2 (by decide) (by decide) (by decide)
  exact ⟨h1.1 (by decide), h2.2.1 (by decide), h3.2.2.1 (by decide), h1.2.2.2.1, h5.1, h5.2⟩

end RasaBot
